import Mathlib

/-!
Shallow embedding of the V.I.R.A ingestion-orchestrator core: the merge and
reindex logic of `useProjectOrchestrator.ts`, the category predicates of
`utils/validation.ts`, the orchestrator reducer, and the analysis-pool
primitives (`CircuitBreaker`, `ExponentialBackoff`, `executeWithBackpressure`)
of `services/geminiAnalysisPool.ts`.

JS numbers that the source only carries around (revenue, confidence scores,
file sizes in MB, progress ratios) are modelled as rationals; ids declared
INTEGER in the response schemas are modelled as `Int`; timestamps from
`Date.now()` are passed in explicitly as parameters.
-/

namespace VIRA

/-! ### JS string helpers

The JS string operations used by the source (`startsWith`, `endsWith`,
`toLowerCase`, decimal rendering of a number inside a template literal) are
modelled directly on the character lists so that the kernel can evaluate them
on concrete inputs.
-/

/-- JS `String.prototype.startsWith`. -/
def strStartsWith (s pre : String) : Bool := pre.data.isPrefixOf s.data

/-- JS `String.prototype.endsWith`. -/
def strEndsWith (s suf : String) : Bool := suf.data.isSuffixOf s.data

/-- JS `String.prototype.toLowerCase` (ASCII, which is all the source compares). -/
def strToLower (s : String) : String := String.mk (s.data.map Char.toLower)

/-- Decimal digits of a natural number, most significant first, with enough
fuel to terminate structurally (mirrors how a JS number is rendered inside a
template literal). Accumulator style: `decCharsGo fuel n acc` prepends the
digits of `n` to `acc`. -/
def decCharsGo : Nat → Nat → List Char → List Char
  | 0, _, acc => acc
  | fuel + 1, n, acc =>
    if n < 10 then Nat.digitChar n :: acc
    else decCharsGo fuel (n / 10) (Nat.digitChar (n % 10) :: acc)

/-- Decimal rendering of a natural number, as a character list. -/
def decChars (n : Nat) : List Char := decCharsGo (n + 1) n []

/-- Value of a decimal digit character. -/
def digitVal (c : Char) : Nat := c.toNat - Char.toNat '0'

/-- Read a decimal digit string back into a number (proof tool for the
injectivity of the rendering). -/
def decodeDigits (a : Nat) (cs : List Char) : Nat :=
  cs.foldl (fun acc c => 10 * acc + digitVal c) a

/-! ### Data model (`types.ts`)

`TaskStatus` / `TaskPriority` are TS string enums and the AI response schemas
deliver them as plain strings, so they are modelled as `String`. -/

structure ProjectDetails where
  project_name : String
  opportunity_number : String
  account_name : String
  opp_revenue : ℚ
deriving DecidableEq

structure ActionItem where
  id : String
  subject : String
  description : String
  status : String
  priority : String
  due_date : String
  assigned_to_name : String
  task_types : String
  hours_remaining : ℚ
  total_hours : Option ℚ
  sourceConversationNodeId : Option Int
deriving DecidableEq

structure ConversationNode where
  node_id : Int
  parent_node_id : Option Int
  speaker_name : String
  speaker_email : String
  timestamp : String
  summary : String
deriving DecidableEq

structure Attachment where
  file_name : String
  file_type : String
  file_size_mb : ℚ
  upload_date : String
deriving DecidableEq

structure MentionedAttachment where
  file_name : String
  context : String
deriving DecidableEq

/-- Return type of `analyzeEmailConversation`
(`Omit<SynthesizedProjectData, ... >`); also the shape of the accumulator of
the email-merge fold in `useProjectOrchestrator.ts`. -/
structure EmailResult where
  action_items : List ActionItem
  conversation_summary : String
  conversation_nodes : List ConversationNode
  attachments : List Attachment
  mentioned_attachments : List MentionedAttachment
deriving DecidableEq

/-- Return type of `analyzeSalesforceFile`. -/
structure SalesforceResult where
  project_details : ProjectDetails
deriving DecidableEq

/-! ### Salesforce merge (`useProjectOrchestrator.ts`, `mergedProjectDetails`)

The reduce step is the object spread
spread acc first, then spread `result.project_details`; every field of
`ProjectDetails` is required in the schema, so the later spread supplies all
four keys and overwrites each of them. -/

def emptyProjectDetails : ProjectDetails :=
  { project_name := "", opportunity_number := "", account_name := "", opp_revenue := 0 }

/-- One step of the reduce: JS object spread, later properties win. -/
def mergeDetailsStep (_acc : ProjectDetails) (result : SalesforceResult) : ProjectDetails :=
  { project_name := result.project_details.project_name
    opportunity_number := result.project_details.opportunity_number
    account_name := result.project_details.account_name
    opp_revenue := result.project_details.opp_revenue }

def mergedProjectDetails (salesforceResults : List SalesforceResult) : ProjectDetails :=
  salesforceResults.foldl mergeDetailsStep emptyProjectDetails

/-- The merge the spec describes (first-non-empty / non-zero value wins,
folding left to right); written from the words of the spec to compare against
`mergedProjectDetails`. -/
def specMergeDetailsStep (acc : ProjectDetails) (result : SalesforceResult) : ProjectDetails :=
  { project_name :=
      if acc.project_name = "" then result.project_details.project_name else acc.project_name
    opportunity_number :=
      if acc.opportunity_number = "" then result.project_details.opportunity_number
      else acc.opportunity_number
    account_name :=
      if acc.account_name = "" then result.project_details.account_name else acc.account_name
    opp_revenue :=
      if acc.opp_revenue = 0 then result.project_details.opp_revenue else acc.opp_revenue }

def specMergedProjectDetails (salesforceResults : List SalesforceResult) : ProjectDetails :=
  salesforceResults.foldl specMergeDetailsStep emptyProjectDetails

/-! ### Email merge (`useProjectOrchestrator.ts`, `mergedEmailData`) -/

/-- `acc.conversation_nodes.reduce((max, node) => Math.max(max, node.node_id), 0)`. -/
def maxNodeId (nodes : List ConversationNode) : Int :=
  nodes.foldl (fun m node => max m node.node_id) 0

/-- `result.conversation_nodes.map((node, i) => ({ ...node, node_id: maxNodeId + 1 + i,
parent_node_id: node.parent_node_id ? maxNodeId + node.parent_node_id : null }))`.
The parent is rewritten by the fixed offset `maxNodeId + p`; the JS
conditional treats `null`, `undefined` and `0` as falsy, so those become
`null`. `i` is the running array index. -/
def reindexNodes (maxId : Int) : Nat → List ConversationNode → List ConversationNode
  | _, [] => []
  | i, node :: rest =>
    { node with
      node_id := maxId + 1 + (i : Int)
      parent_node_id :=
        match node.parent_node_id with
        | some p => if p = 0 then none else some (maxId + p)
        | none => none } :: reindexNodes maxId (i + 1) rest

def mergeEmailStep (acc result : EmailResult) : EmailResult :=
  let maxId := maxNodeId acc.conversation_nodes
  { action_items := acc.action_items ++ result.action_items
    conversation_summary :=
      (acc.conversation_summary ++ "\n" ++ result.conversation_summary).trim
    conversation_nodes := acc.conversation_nodes ++ reindexNodes maxId 0 result.conversation_nodes
    attachments := acc.attachments ++ result.attachments
    mentioned_attachments := acc.mentioned_attachments ++ result.mentioned_attachments }

def emptyEmailAcc : EmailResult :=
  { action_items := []
    conversation_summary := ""
    conversation_nodes := []
    attachments := []
    mentioned_attachments := [] }

def mergedEmailData (emailResults : List EmailResult) : EmailResult :=
  emailResults.foldl mergeEmailStep emptyEmailAcc

/-! ### Predicates about node sets -/

def nodeIds (nodes : List ConversationNode) : List Int := nodes.map (fun node => node.node_id)

/-- Every non-null parent reference points at a node id present in the same
node set (the claims' internal-consistency hypothesis, and their resolution
conclusion). -/
def parentsResolve (nodes : List ConversationNode) : Prop :=
  ∀ node ∈ nodes, ∀ p, node.parent_node_id = some p →
    ∃ node2 ∈ nodes, node2.node_id = p

/-- Every non-null parent reference lies in the inclusive range `[lo, hi]`. -/
def parentsBounded (nodes : List ConversationNode) (lo hi : Int) : Prop :=
  ∀ node ∈ nodes, ∀ p, node.parent_node_id = some p → lo ≤ p ∧ p ≤ hi

/-- The node at array position `i` carries `node_id = base + i + 1`; the shape
the AI is instructed to produce (consecutive 1-based numbering when
`base = 0`). -/
def seqNodes : List ConversationNode → Int → Prop
  | [], _ => True
  | node :: rest, b => node.node_id = b + 1 ∧ seqNodes rest (b + 1)

instance decidableOptionForall {α : Type} (o : Option α) (Q : α → Prop) [DecidablePred Q] :
    Decidable (∀ p, o = some p → Q p) :=
  match o with
  | none => isTrue (fun _ h => nomatch h)
  | some x =>
    if hx : Q x then isTrue (fun _ h => (Option.some.inj h) ▸ hx)
    else isFalse (fun h => hx (h x rfl))

instance decidableParentsResolve (nodes : List ConversationNode) :
    Decidable (parentsResolve nodes) := by
  unfold parentsResolve
  infer_instance

instance decidableParentsBounded (nodes : List ConversationNode) (lo hi : Int) :
    Decidable (parentsBounded nodes lo hi) := by
  unfold parentsBounded
  infer_instance

instance decidableSeqNodes : (nodes : List ConversationNode) → (b : Int) →
    Decidable (seqNodes nodes b)
  | [], _ => isTrue trivial
  | _ :: rest, b => @instDecidableAnd _ _ _ (decidableSeqNodes rest (b + 1))

/-! ### Action-item id assignment (`geminiService.ts`, `analyzeEmailConversation`)

The post-processing step is
`data.action_items.map((item, index) => ({ ...item, id: task-Date.now()-index }))`
with the id built by a template literal. The AI reply is parsed JSON, so an
item may or may not carry an `id` of its own; the spread puts the generated
id after it, so the generated one always wins. `Date.now()` is passed in
explicitly as `now`. -/

/-- An action item as parsed from the model's JSON, before the id is attached. -/
structure RawActionItem where
  id : Option String
  subject : String
  description : String
  status : String
  priority : String
  due_date : String
  assigned_to_name : String
  task_types : String
  hours_remaining : ℚ
  total_hours : Option ℚ
  sourceConversationNodeId : Option Int
deriving DecidableEq

/-- The characters of the template literal `task-` + now + `-` + index. -/
def taskIdChars (now idx : Nat) : List Char :=
  [ 't', 'a', 's', 'k', '-' ] ++ decChars now ++ '-' :: decChars idx

def taskId (now idx : Nat) : String := String.mk (taskIdChars now idx)

/-- `data.action_items.map((item, index) => ({ ...item, id: ... }))`. -/
def assignActionItemIds (now : Nat) : Nat → List RawActionItem → List ActionItem
  | _, [] => []
  | idx, item :: rest =>
    { id := taskId now idx
      subject := item.subject
      description := item.description
      status := item.status
      priority := item.priority
      due_date := item.due_date
      assigned_to_name := item.assigned_to_name
      task_types := item.task_types
      hours_remaining := item.hours_remaining
      total_hours := item.total_hours
      sourceConversationNodeId := item.sourceConversationNodeId }
      :: assignActionItemIds now (idx + 1) rest

/-- The model's JSON reply for one email file (after the defensive defaults,
which the total record type already guarantees). -/
structure RawEmailResult where
  action_items : List RawActionItem
  conversation_summary : String
  conversation_nodes : List ConversationNode
  attachments : List Attachment
  mentioned_attachments : List MentionedAttachment
deriving DecidableEq

/-- `analyzeEmailConversation`'s post-processing of one parsed reply, with the
`Date.now()` value observed during that call passed as `now`. -/
def postProcessEmail (now : Nat) (raw : RawEmailResult) : EmailResult :=
  { action_items := assignActionItemIds now 0 raw.action_items
    conversation_summary := raw.conversation_summary
    conversation_nodes := raw.conversation_nodes
    attachments := raw.attachments
    mentioned_attachments := raw.mentioned_attachments }

/-- One pipeline run over several email files: each file's analysis yields a
raw result stamped at its own `Date.now()` instant, and the orchestrator
merges the post-processed results in input order. -/
def analyzedEmailRun (inputs : List (Nat × RawEmailResult)) : EmailResult :=
  mergedEmailData (inputs.map (fun ti => postProcessEmail ti.1 ti.2))

/-! ### File category predicates (`utils/validation.ts`) -/

/-- A browser `File` as the validation predicates see it: name, MIME type,
size in bytes, `lastModified` epoch milliseconds. -/
structure File where
  name : String
  type : String
  size : Nat
  lastModified : Nat
deriving DecidableEq

/-- Case-insensitive extension test, the JS regex `\.(e1|e2|...)$/i`. -/
def hasExtIn (name : String) (exts : List String) : Bool :=
  exts.any (fun e => strEndsWith (strToLower name) ("." ++ e))

def isImageFile (f : File) : Bool :=
  strStartsWith f.type "image/" || hasExtIn f.name ["jpg", "jpeg", "png", "tiff"]

def isSalesforceFile (f : File) : Bool :=
  strEndsWith f.name ".md" || isImageFile f

def isEmailFile (f : File) : Bool :=
  hasExtIn f.name ["pdf", "txt", "md", "csv", "xls", "html", "doc", "ppt", "json", "eml"]
    || isImageFile f

/-- Modelled from the spec: `isPdfFile` is imported from `utils/validation`
but its definition is not among the sources; the spec treats "PDF files" as
the files of the PDF category, so it is modelled as the (case-insensitive)
`.pdf` extension test, consistent with how `isEmailFile` matches the `pdf`
extension. -/
def isPdfFile (f : File) : Bool := strEndsWith (strToLower f.name) ".pdf"

/-! ### Role groups of the `AnalyzingParallel` effect
(`useProjectOrchestrator.ts`, `runAnalysis`) -/

def salesforceFilesOf (files : List File) : List File := files.filter isSalesforceFile

def emailFilesOf (files : List File) : List File := files.filter isEmailFile

def imageFilesOf (files : List File) : List File :=
  files.filter (fun f => isImageFile f && !isPdfFile f)

def analysisSalesforceFiles (files : List File) : List File :=
  (salesforceFilesOf files).filter (fun f => !isPdfFile f)

def analysisEmailFiles (files : List File) : List File :=
  (emailFilesOf files).filter (fun f => !isPdfFile f)

def analysisImageFiles (files convertedImagesFromPdfs : List File) : List File :=
  imageFilesOf files ++ convertedImagesFromPdfs

/-! ### Orchestrator state machine (`useProjectOrchestrator.ts`)

The per-file status map is a JS object keyed by file name: insertion ordered,
keys unique, assignment overwrites in place or appends a fresh key. It is
modelled as an insertion-ordered association list with exactly that update
operation. -/

inductive FileState
  | queued
  | processing
  | success
  | error
deriving DecidableEq

structure FileStatus where
  state : FileState
  detail : Option String := none
  error : Option String := none
  progress : Option ℚ := none
deriving DecidableEq

abbrev Statuses := List (String × FileStatus)

/-- JS `obj[key] = value` / `{ ...obj, [key]: value }` on an object. -/
def recSet (m : Statuses) (k : String) (v : FileStatus) : Statuses :=
  if m.any (fun kv => kv.1 == k) then
    m.map (fun kv => if kv.1 == k then (k, v) else kv)
  else m ++ [(k, v)]

/-- JS `key in obj`: the object has an entry for this key. -/
def recHas (m : Statuses) (k : String) : Bool := m.any (fun kv => kv.1 == k)

inductive ProjectLifecycle
  | IDLE
  | VALIDATING
  | CONVERTING_PDFS
  | ANALYZING_PARALLEL
  | AWAITING_REVIEW
  | CREATING_PROJECT
  | COMPLETE
  | ERROR
deriving DecidableEq

structure BoundingBox where
  x1 : ℚ
  y1 : ℚ
  x2 : ℚ
  y2 : ℚ
deriving DecidableEq

structure AnalyzedDetail where
  text : String
  correctedText : Option String
  boundingBox : BoundingBox
  confidence : Option ℚ
deriving DecidableEq

structure ImageAnalysisReport where
  fileName : String
  summary : String
  extractedText : List AnalyzedDetail
  detectedObjects : List AnalyzedDetail
  partNumbers : List String
  people : List String
deriving DecidableEq

/-- `RawImageAnalysis` of `types.ts` plus the `fileSize` / `uploadDate`
fields the orchestrator attaches when it builds the payload. -/
structure RawImageAnalysis where
  report : ImageAnalysisReport
  base64Data : String
  fileSize : Nat
  uploadDate : String
deriving DecidableEq

structure ImportedImageDetails where
  extractedText : Option (List AnalyzedDetail)
  detectedObjects : Option (List AnalyzedDetail)
  partNumbers : Option (List String)
  people : Option (List String)
deriving DecidableEq

structure ProjectImageReport where
  summary : String
  importedDetails : ImportedImageDetails
deriving DecidableEq

structure ProjectImage where
  fileName : String
  base64Data : String
  report : ProjectImageReport
deriving DecidableEq

structure SourceFiles where
  salesforceFileNames : List String
  emailFileNames : List String
deriving DecidableEq

/-- `Omit<SynthesizedProjectData, 'image_reports'>`: the text part of the
analysis payload. -/
structure TextData where
  project_details : ProjectDetails
  action_items : List ActionItem
  conversation_summary : String
  conversation_nodes : List ConversationNode
  attachments : List Attachment
  mentioned_attachments : List MentionedAttachment
deriving DecidableEq

structure AnalysisPayload where
  textData : TextData
  imageData : List RawImageAnalysis
  sourceFiles : SourceFiles
  rawSalesforceContent : String
  rawEmailContent : String
deriving DecidableEq

inductive ProjectStatus
  | PENDING
  | PROCESSING
  | READY
  | ERROR
deriving DecidableEq

structure Project where
  id : String
  name : String
  opportunityNumber : String
  status : ProjectStatus
  createdAt : String
  sourceFiles : SourceFiles
  rawSalesforceContent : Option String
  rawEmailContent : Option String
  data : Option TextData
  images : Option (List ProjectImage)
deriving DecidableEq

structure ProjectCreationContext where
  files : List File
  convertedImagesFromPdfs : List File
  fileProcessingStatus : Statuses
  error : Option String
  analysisPayload : Option AnalysisPayload
  finalImages : Option (List ProjectImage)
  newlyCreatedProject : Option Project
deriving DecidableEq

structure OrchestratorState where
  value : ProjectLifecycle
  context : ProjectCreationContext
deriving DecidableEq

inductive OrchestratorEvent
  | SUBMIT_FILES (files : List File)
  | VALIDATION_SUCCESS
  | PDF_CONVERSION_COMPLETE (images : List File)
  | START_ANALYSIS
  | UPDATE_STATUS (fileName : String) (status : FileStatus)
  | ANALYSIS_COMPLETE (payload : AnalysisPayload)
  | CONFIRM_REVIEW (images : List ProjectImage)
  | PROJECT_CREATED (project : Project)
  | CANCEL
  | RESET
  | SET_ERROR (error : String)
deriving DecidableEq

def initialContext : ProjectCreationContext :=
  { files := []
    convertedImagesFromPdfs := []
    fileProcessingStatus := []
    error := none
    analysisPayload := none
    finalImages := none
    newlyCreatedProject := none }

def initialState : OrchestratorState :=
  { value := .IDLE, context := initialContext }

/-- The `queued` seed entry `VALIDATION_SUCCESS` writes for every file. -/
def queuedStatus : FileStatus :=
  { state := .queued, detail := some "Waiting in queue..." }

/-- `state.context.files.reduce((acc, file) => { acc[file.name] = ...; return acc }, {})`. -/
def seedStatuses (files : List File) : Statuses :=
  files.foldl (fun acc f => recSet acc f.name queuedStatus) []

/-- The reducer. One point needs care: in the source the `switch` lists
`case AWAITING_REVIEW` twice, once for `CONFIRM_REVIEW` and again (falling
through from `case COMPLETE`) for `RESET`/`CANCEL`. A JS `switch` enters at
the FIRST matching case label, so for `AWAITING_REVIEW` only the first
clause ever runs and the later duplicate label is reachable only by falling
through from `COMPLETE`. The match below therefore gives `AWAITING_REVIEW`
only the `CONFIRM_REVIEW` handler, and `COMPLETE` the reset handler. -/
def orchestratorReducer (state : OrchestratorState) (event : OrchestratorEvent) :
    OrchestratorState :=
  match state.value with
  | .IDLE =>
    match event with
    | .SUBMIT_FILES files =>
      { value := .VALIDATING, context := { initialContext with files := files, error := none } }
    | _ => state
  | .VALIDATING =>
    match event with
    | .VALIDATION_SUCCESS =>
      let hasPdfs := state.context.files.any isPdfFile
      let nextState :=
        if hasPdfs then ProjectLifecycle.CONVERTING_PDFS else ProjectLifecycle.ANALYZING_PARALLEL
      { value := nextState
        context :=
          { state.context with fileProcessingStatus := seedStatuses state.context.files } }
    | .SET_ERROR err =>
      { value := .ERROR, context := { state.context with error := some err, files := [] } }
    | _ => state
  | .CONVERTING_PDFS =>
    match event with
    | .PDF_CONVERSION_COMPLETE images =>
      { value := .ANALYZING_PARALLEL
        context := { state.context with convertedImagesFromPdfs := images } }
    | .SET_ERROR err =>
      { value := .ERROR, context := { state.context with error := some err } }
    | .UPDATE_STATUS fileName status =>
      { value := state.value
        context :=
          { state.context with
            fileProcessingStatus := recSet state.context.fileProcessingStatus fileName status } }
    | _ => state
  | .ANALYZING_PARALLEL =>
    match event with
    | .UPDATE_STATUS fileName status =>
      { value := state.value
        context :=
          { state.context with
            fileProcessingStatus := recSet state.context.fileProcessingStatus fileName status } }
    | .ANALYSIS_COMPLETE payload =>
      let hasImagesToReview := 0 < payload.imageData.length
      { value := if hasImagesToReview then .AWAITING_REVIEW else .CREATING_PROJECT
        context :=
          { state.context with
            analysisPayload := some payload
            finalImages := if hasImagesToReview then none else some [] } }
    | .SET_ERROR err =>
      { value := .ERROR, context := { state.context with error := some err } }
    | _ => state
  | .AWAITING_REVIEW =>
    match event with
    | .CONFIRM_REVIEW images =>
      { value := .CREATING_PROJECT, context := { state.context with finalImages := some images } }
    | _ => state
  | .CREATING_PROJECT =>
    match event with
    | .PROJECT_CREATED project =>
      { value := .COMPLETE
        context := { state.context with newlyCreatedProject := some project } }
    | _ => state
  | .COMPLETE =>
    match event with
    | .RESET => initialState
    | .CANCEL => initialState
    | _ => state
  | .ERROR =>
    match event with
    | .SUBMIT_FILES files =>
      { value := .VALIDATING, context := { initialContext with files := files } }
    | .RESET => initialState
    | .CANCEL => initialState
    | _ => state

/-- A pipeline run: the reducer folded over a list of dispatched events from
the initial state. -/
def runEvents (events : List OrchestratorEvent) : OrchestratorState :=
  events.foldl orchestratorReducer initialState

/-! ### Analysis pool primitives (`services/geminiAnalysisPool.ts`)

The pool runs in a single-threaded event loop; what a wrapped task eventually
settles to is the only thing the breaker, the retry policy and the aggregation
observe. A task is therefore modelled by its settled outcome (`Except`), and
each call's `Date.now()` instant is an explicit argument. Each call reports a
flag recording whether the wrapped operation was actually invoked. -/

/-- A thrown JS error as the pool inspects it: either a `GeminiApiError`
(carrying `isRetryable`) or any other `Error`. -/
inductive JsError
  | geminiApiError (message : String) (isRetryable : Bool)
  | plain (message : String)
deriving DecidableEq

/-- `error instanceof GeminiApiError && error.isRetryable`. -/
def isRetryableGemini : JsError → Bool
  | .geminiApiError _ r => r
  | .plain _ => false

inductive CircuitState
  | CLOSED
  | OPEN
  | HALF_OPEN
deriving DecidableEq

structure CircuitBreakerConfig where
  failureThreshold : Nat
  timeout : Int
  resetTimeout : Int
deriving DecidableEq

structure CircuitBreaker where
  state : CircuitState := .CLOSED
  failureCount : Nat := 0
  lastFailureTime : Int := 0
deriving DecidableEq

def CircuitBreaker.trip (cb : CircuitBreaker) : CircuitBreaker :=
  { cb with state := .OPEN }

def CircuitBreaker.reset (cb : CircuitBreaker) : CircuitBreaker :=
  { cb with state := .CLOSED, failureCount := 0 }

def CircuitBreaker.onSuccess (cb : CircuitBreaker) : CircuitBreaker :=
  let cb := if cb.state = .HALF_OPEN then cb.reset else cb
  { cb with failureCount := 0 }

def CircuitBreaker.onFailure (cfg : CircuitBreakerConfig) (now : Int)
    (cb : CircuitBreaker) : CircuitBreaker :=
  let cb := { cb with lastFailureTime := now }
  if cb.state = .HALF_OPEN then cb.trip
  else
    let cb := { cb with failureCount := cb.failureCount + 1 }
    if cb.failureCount ≥ cfg.failureThreshold then cb.trip else cb

def breakerOpenError : JsError := .plain "CircuitBreaker is open. Call blocked."

instance decEqExcept {ε α : Type} [DecidableEq ε] [DecidableEq α] :
    DecidableEq (Except ε α)
  | .ok a, .ok b =>
    if h : a = b then isTrue (by rw [h]) else isFalse (fun hc => h (Except.ok.inj hc))
  | .ok _, .error _ => isFalse (fun hc => Except.noConfusion hc)
  | .error _, .ok _ => isFalse (fun hc => Except.noConfusion hc)
  | .error a, .error b =>
    if h : a = b then isTrue (by rw [h]) else isFalse (fun hc => h (Except.error.inj hc))

/-- Result of one `CircuitBreaker.execute` call: the breaker afterwards, what
the call resolved or rejected with, and whether the wrapped operation was
invoked at all. -/
structure CBCallResult (α : Type) where
  breaker : CircuitBreaker
  result : Except JsError α
  invoked : Bool
deriving DecidableEq

/-- The `try { await task() } ... catch` part of `execute`. -/
def CircuitBreaker.runTask {α : Type} (cfg : CircuitBreakerConfig) (cb : CircuitBreaker)
    (now : Int) (outcome : Except JsError α) : CBCallResult α :=
  match outcome with
  | .ok v => ⟨cb.onSuccess, .ok v, true⟩
  | .error e => ⟨cb.onFailure cfg now, .error e, true⟩

/-- One `CircuitBreaker.execute` call made at instant `now`, whose wrapped
operation would settle to `outcome` if invoked. -/
def CircuitBreaker.executeStep {α : Type} (cfg : CircuitBreakerConfig) (cb : CircuitBreaker)
    (now : Int) (outcome : Except JsError α) : CBCallResult α :=
  if cb.state = .OPEN then
    if now - cb.lastFailureTime > cfg.timeout then
      CircuitBreaker.runTask cfg { cb with state := .HALF_OPEN } now outcome
    else ⟨cb, .error breakerOpenError, false⟩
  else CircuitBreaker.runTask cfg cb now outcome

/-- A sequence of `execute` calls, threaded through the breaker state. -/
def CircuitBreaker.run {α : Type} (cfg : CircuitBreakerConfig) (cb : CircuitBreaker) :
    List (Int × Except JsError α) → CircuitBreaker
  | [] => cb
  | (now, outcome) :: rest =>
    CircuitBreaker.run cfg (CircuitBreaker.executeStep cfg cb now outcome).breaker rest

/-! ### Retry policy (`ExponentialBackoff`) -/

structure RetryPolicyConfig where
  maxAttempts : Nat
  baseDelay : Int
  maxDelay : Int
deriving DecidableEq

/-- `Math.min(maxDelay, baseDelay * Math.pow(2, attempt))`; the random jitter
added on top of it only stretches the wait and is not observable in any
retry-count or result property. -/
def backoffDelay (cfg : RetryPolicyConfig) (attempt : Nat) : Int :=
  min cfg.maxDelay (cfg.baseDelay * 2 ^ attempt)

/-- The retry loop of `ExponentialBackoff.execute`, from attempt index
`attempt` on. The task is modelled by what its `i`-th invocation settles to.
Returns the propagated result and how many times the task was invoked. -/
def ExponentialBackoff.go {α : Type} (cfg : RetryPolicyConfig)
    (task : Nat → Except JsError α) (attempt : Nat) : Except JsError α × Nat :=
  if _h : attempt < cfg.maxAttempts then
    match task attempt with
    | .ok v => (.ok v, 1)
    | .error e =>
      if isRetryableGemini e = true ∧ attempt < cfg.maxAttempts - 1 then
        let r := ExponentialBackoff.go cfg task (attempt + 1)
        (r.1, r.2 + 1)
      else (.error e, 1)
  else (.error (.plain "Max retry attempts reached."), 0)
termination_by cfg.maxAttempts - attempt
decreasing_by omega

def ExponentialBackoff.execute {α : Type} (cfg : RetryPolicyConfig)
    (task : Nat → Except JsError α) : Except JsError α × Nat :=
  ExponentialBackoff.go cfg task 0

/-! ### Batch aggregation (`GeminiAnalysisPool.executeWithBackpressure`)

`Promise.allSettled` observes every wrapped task's outcome and yields them in
input order regardless of completion order; `settled` below is that list. -/

structure AggregateAnalysisError where
  errors : List JsError
  message : String
deriving DecidableEq

def aggregateMessage (n : Nat) : String :=
  "Multiple analysis errors occurred: " ++ String.mk (decChars n) ++ " total."

def mkAggregateAnalysisError (errs : List JsError) : AggregateAnalysisError :=
  ⟨errs, aggregateMessage errs.length⟩

/-- The `results.forEach` partition into `successfulResults` and `errors`. -/
def collectSettled {α : Type} (settled : List (Except JsError α)) :
    List α × List JsError :=
  settled.foldl
    (fun acc r =>
      match r with
      | .ok v => (acc.1 ++ [v], acc.2)
      | .error e => (acc.1, acc.2 ++ [e]))
    ([], [])

/-- `executeWithBackpressure` after all tasks settled: throw the aggregate
error when any task failed, otherwise return the successful values. -/
def executeWithBackpressure {α : Type} (settled : List (Except JsError α)) :
    Except AggregateAnalysisError (List α) :=
  let successfulResults := (collectSettled settled).1
  let errors := (collectSettled settled).2
  if 0 < errors.length then .error (mkAggregateAnalysisError errors) else .ok successfulResults

/-- The successful values among the settled outcomes, in input order. -/
def settledOks {α : Type} (settled : List (Except JsError α)) : List α :=
  settled.filterMap (fun r => match r with | .ok v => some v | .error _ => none)

/-- The failure reasons among the settled outcomes, in input order. -/
def settledErrors {α : Type} (settled : List (Except JsError α)) : List JsError :=
  settled.filterMap (fun r => match r with | .ok _ => none | .error e => some e)

/-! ### Concrete inputs used by witnesses and counterexamples -/

def mkNode (id : Int) (p : Option Int) : ConversationNode := ⟨id, p, "", "", "", ""⟩

def sfAlpha : SalesforceResult := ⟨⟨"Alpha", "OPP-1", "Acme", 100⟩⟩

def sfBeta : SalesforceResult := ⟨⟨"Beta", "OPP-2", "Globex", 200⟩⟩

/-- An email result whose node ids are internally consistent but not
consecutively numbered: ids 5 and 7, the second node's parent is 5. -/
def gapResult : EmailResult := ⟨[], "", [mkNode 5 none, mkNode 7 (some 5)], [], []⟩

/-- An email result numbered 1, 2 in order with an in-range parent. -/
def seqResultA : EmailResult := ⟨[], "", [mkNode 1 none, mkNode 2 (some 1)], [], []⟩

/-- Another consecutively numbered email result, ids 1, 2, 3. -/
def seqResultB : EmailResult :=
  ⟨[], "", [mkNode 1 none, mkNode 2 (some 1), mkNode 3 (some 2)], [], []⟩

def photoJpg : File := ⟨"photo.jpg", "image/jpeg", 5, 0⟩

def reportPdf : File := ⟨"report.pdf", "application/pdf", 9, 0⟩

def pageImg : File := ⟨"report.pdf-page-1.png", "image/png", 4, 0⟩

def emailTxt : File := ⟨"email.txt", "text/plain", 3, 0⟩

/-- A context as it looks while a review is pending. -/
def reviewCtx : ProjectCreationContext := { initialContext with files := [photoJpg] }

/-- A run that goes through PDF conversion: the converted page image reaches
`AnalyzingParallel` without ever getting a `fileProcessingStatus` entry. -/
def pdfTrace : List OrchestratorEvent :=
  [.SUBMIT_FILES [reportPdf], .VALIDATION_SUCCESS, .PDF_CONVERSION_COMPLETE [pageImg]]

/-- A run with no PDFs: `VALIDATION_SUCCESS` goes straight to `AnalyzingParallel`. -/
def plainTrace : List OrchestratorEvent :=
  [.SUBMIT_FILES [emailTxt], .VALIDATION_SUCCESS]

def rawItem : RawActionItem := ⟨none, "Follow up", "", "Open", "Normal", "", "", "", 1, none, none⟩

def rawE : RawEmailResult := ⟨[rawItem], "", [], [], []⟩

def cbCfg1 : CircuitBreakerConfig := ⟨1, 10, 5⟩

/-- The breaker after one failure at instant 0 under `cbCfg1`: tripped open. -/
def failedOnce : CircuitBreaker :=
  (CircuitBreaker.executeStep cbCfg1 ⟨.CLOSED, 0, 0⟩ 0
    (Except.error (JsError.geminiApiError "boom" false) : Except JsError Nat)).breaker

def retryCfg3 : RetryPolicyConfig := ⟨3, 1000, 10000⟩

def settledAllOk : List (Except JsError Nat) := [.ok 1, .ok 2, .ok 3]

def settledMixed : List (Except JsError Nat) :=
  [.ok 1, .error (.plain "boom"), .ok 2, .error (.geminiApiError "x" true)]

/-! ## Theorems -/

/-! ### C2: Salesforce project-details merge -/

theorem foldl_mergeDetailsStep (l : List SalesforceResult) :
    ∀ acc : ProjectDetails,
      l.foldl mergeDetailsStep acc =
        ((l.getLast?).map (fun r => r.project_details)).getD acc := by
  induction l with
  | nil => intro acc; rfl
  | cons r rs ih =>
    intro acc
    rw [List.foldl_cons, ih]
    cases rs with
    | nil => rfl
    | cons r2 rs2 =>
      rw [List.getLast?_cons_cons]
      cases hx : (r2 :: rs2).getLast? with
      | none => simp at hx
      | some x => rfl

/-- C2: the claim says the fold is first-non-empty-wins, but each reduce step
is the object spread with all four `ProjectDetails` keys required, so every
later result overwrites every field: the merged details equal the LAST
result's details (or the all-empty initial record when there are none). -/
theorem c2_theorem (salesforceResults : List SalesforceResult) :
    mergedProjectDetails salesforceResults =
      ((salesforceResults.getLast?).map (fun r => r.project_details)).getD
        emptyProjectDetails :=
  foldl_mergeDetailsStep salesforceResults emptyProjectDetails

/-- C2 counterexample: the first result sets `project_name` to the non-empty
value Alpha, yet the merged details carry the later result's Beta; the merge
the spec describes would have kept Alpha. -/
theorem c2_counterexample :
    (mergedProjectDetails [sfAlpha, sfBeta]).project_name = "Beta" ∧
    (mergedProjectDetails [sfAlpha, sfBeta]).project_name ≠ "Alpha" ∧
    (specMergedProjectDetails [sfAlpha, sfBeta]).project_name = "Alpha" ∧
    specMergedProjectDetails [sfAlpha, sfBeta] ≠ mergedProjectDetails [sfAlpha, sfBeta] := by
  refine ⟨?_, ?_, ?_, ?_⟩ <;> decide

/-! ### C10: a blocked call leaves the breaker untouched -/

/-- C10: while the breaker is open and the window has not elapsed, the call
is rejected with the breaker-open error, the wrapped operation is not
invoked, and the breaker record (state, failure count, last-failure time)
is returned unchanged. -/
theorem c10_theorem {α : Type} (cfg : CircuitBreakerConfig) (cb : CircuitBreaker)
    (now : Int) (outcome : Except JsError α)
    (hopen : cb.state = .OPEN)
    (helapsed : now - cb.lastFailureTime ≤ cfg.timeout) :
    (CircuitBreaker.executeStep cfg cb now outcome).breaker = cb ∧
    (CircuitBreaker.executeStep cfg cb now outcome).invoked = false ∧
    (CircuitBreaker.executeStep cfg cb now outcome).result = .error breakerOpenError := by
  unfold CircuitBreaker.executeStep
  rw [if_pos hopen, if_neg (by omega)]
  exact ⟨rfl, rfl, rfl⟩

theorem c10_witness :
    (CircuitBreaker.executeStep ⟨3, 30000, 10000⟩ ⟨.OPEN, 3, 100⟩ 5000
        (Except.ok (1 : Nat))).breaker = ⟨.OPEN, 3, 100⟩ ∧
    (CircuitBreaker.executeStep ⟨3, 30000, 10000⟩ ⟨.OPEN, 3, 100⟩ 5000
        (Except.ok (1 : Nat))).invoked = false ∧
    (CircuitBreaker.executeStep ⟨3, 30000, 10000⟩ ⟨.OPEN, 3, 100⟩ 5000
        (Except.ok (1 : Nat))).result = .error breakerOpenError :=
  c10_theorem ⟨3, 30000, 10000⟩ ⟨.OPEN, 3, 100⟩ 5000 (Except.ok 1) (by decide) (by decide)

/-! ### C7: batch aggregation -/

theorem collectSettled_eq {α : Type} (settled : List (Except JsError α)) :
    collectSettled settled = (settledOks settled, settledErrors settled) := by
  suffices h : ∀ (l : List (Except JsError α)) (s : List α) (e : List JsError),
      l.foldl
        (fun acc r =>
          match r with
          | .ok v => (acc.1 ++ [v], acc.2)
          | .error e2 => (acc.1, acc.2 ++ [e2]))
        (s, e) = (s ++ settledOks l, e ++ settledErrors l) by
    simpa [collectSettled] using h settled [] []
  intro l
  induction l with
  | nil => intro s e; simp [settledOks, settledErrors]
  | cons r rest ih =>
    intro s e
    cases r with
    | ok v => simp [settledOks, settledErrors, ih]
    | error e2 => simp [settledOks, settledErrors, ih]

/-- C7: with every task's settled outcome observed in input order, zero
failures return exactly the successful values in input order, and K ≥ 1
failures throw the aggregate error whose cause list is exactly the K
individual failure reasons (again in input order). -/
theorem c7_theorem {α : Type} (settled : List (Except JsError α)) :
    (settledErrors settled = [] →
      executeWithBackpressure settled = .ok (settledOks settled)) ∧
    (settledErrors settled ≠ [] →
      executeWithBackpressure settled =
        .error ⟨settledErrors settled, aggregateMessage (settledErrors settled).length⟩) := by
  constructor <;> intro h
  · simp [executeWithBackpressure, collectSettled_eq, h]
  · have hpos : 0 < (settledErrors settled).length := List.length_pos.mpr h
    simp [executeWithBackpressure, collectSettled_eq, mkAggregateAnalysisError, hpos]

theorem c7_witness :
    executeWithBackpressure settledAllOk = .ok (settledOks settledAllOk) ∧
    executeWithBackpressure settledMixed =
      .error ⟨settledErrors settledMixed, aggregateMessage (settledErrors settledMixed).length⟩ :=
  ⟨(c7_theorem settledAllOk).1 (by decide), (c7_theorem settledMixed).2 (by decide)⟩

/-! ### C3: role groups of the parallel analysis stage -/

/-- C3 amended: PDFs are excluded from every direct-analysis group, but the
three groups are NOT pairwise disjoint: any non-PDF image file is analyzed
under all three roles, because `isSalesforceFile` and `isEmailFile` both
accept every image file. -/
theorem c3_theorem (files convertedImagesFromPdfs : List File) :
    (∀ f : File, isPdfFile f = true →
      f ∉ analysisSalesforceFiles files ∧
      f ∉ analysisEmailFiles files ∧
      (f ∉ convertedImagesFromPdfs → f ∉ analysisImageFiles files convertedImagesFromPdfs)) ∧
    (∀ f ∈ files, isImageFile f = true → isPdfFile f = false →
      f ∈ analysisSalesforceFiles files ∧
      f ∈ analysisEmailFiles files ∧
      f ∈ analysisImageFiles files convertedImagesFromPdfs) := by
  constructor
  · intro f hpdf
    refine ⟨?_, ?_, ?_⟩
    · intro hmem
      have := (List.mem_filter.mp hmem).2
      simp [hpdf] at this
    · intro hmem
      have := (List.mem_filter.mp hmem).2
      simp [hpdf] at this
    · intro hconv hmem
      rcases List.mem_append.mp hmem with hmem2 | hmem2
      · have := (List.mem_filter.mp hmem2).2
        simp [hpdf] at this
      · exact hconv hmem2
  · intro f hf himg hnpdf
    have hsf : isSalesforceFile f = true := by simp [isSalesforceFile, himg]
    have hem : isEmailFile f = true := by simp [isEmailFile, himg]
    have hnot : (!isPdfFile f) = true := by simp [hnpdf]
    refine ⟨?_, ?_, ?_⟩
    · exact List.mem_filter.mpr ⟨List.mem_filter.mpr ⟨hf, hsf⟩, hnot⟩
    · exact List.mem_filter.mpr ⟨List.mem_filter.mpr ⟨hf, hem⟩, hnot⟩
    · exact List.mem_append.mpr (Or.inl (List.mem_filter.mpr ⟨hf, by simp [himg, hnpdf]⟩))

theorem c3_witness :
    (reportPdf ∉ analysisSalesforceFiles [photoJpg, reportPdf] ∧
      reportPdf ∉ analysisEmailFiles [photoJpg, reportPdf] ∧
      (reportPdf ∉ ([] : List File) → reportPdf ∉ analysisImageFiles [photoJpg, reportPdf] [])) ∧
    (photoJpg ∈ analysisSalesforceFiles [photoJpg, reportPdf] ∧
      photoJpg ∈ analysisEmailFiles [photoJpg, reportPdf] ∧
      photoJpg ∈ analysisImageFiles [photoJpg, reportPdf] []) :=
  ⟨(c3_theorem [photoJpg, reportPdf] []).1 reportPdf (by decide),
   (c3_theorem [photoJpg, reportPdf] []).2 photoJpg (by decide) (by decide) (by decide)⟩

/-- C3 counterexample: `photo.jpg` is simultaneously a member of the
Salesforce, email and image analysis groups, so the groups are not pairwise
disjoint and the file is analyzed (and counted toward the concurrency
budget) under three roles. -/
theorem c3_counterexample :
    photoJpg ∈ analysisSalesforceFiles [photoJpg] ∧
    photoJpg ∈ analysisEmailFiles [photoJpg] ∧
    photoJpg ∈ analysisImageFiles [photoJpg] [] := by
  refine ⟨?_, ?_, ?_⟩ <;> decide

/-! ### C4: CANCEL / RESET from AwaitingReview and Complete -/

/-- C4: the source lists `case AWAITING_REVIEW` twice; a JS switch enters at
the first matching label, so the reset clause under the second label is dead
for that state. Dispatching CANCEL or RESET in AwaitingReview leaves the
machine in AwaitingReview with its context untouched (contradicting both the
spec's transition table and the code's own comment), while from Complete the
reset to the initial state does happen. -/
theorem c4_bug :
    orchestratorReducer ⟨.AWAITING_REVIEW, reviewCtx⟩ .CANCEL = ⟨.AWAITING_REVIEW, reviewCtx⟩ ∧
    orchestratorReducer ⟨.AWAITING_REVIEW, reviewCtx⟩ .RESET = ⟨.AWAITING_REVIEW, reviewCtx⟩ ∧
    (⟨.AWAITING_REVIEW, reviewCtx⟩ : OrchestratorState) ≠ initialState ∧
    orchestratorReducer ⟨.COMPLETE, reviewCtx⟩ .CANCEL = initialState ∧
    orchestratorReducer ⟨.COMPLETE, reviewCtx⟩ .RESET = initialState := by
  refine ⟨?_, ?_, ?_, ?_, ?_⟩ <;> decide

theorem backoff_go_allfail {α : Type} (cfg : RetryPolicyConfig) (errs : Nat → JsError)
    (hr : ∀ i, isRetryableGemini (errs i) = true) :
    ∀ (k attempt : Nat), cfg.maxAttempts - attempt = k → attempt < cfg.maxAttempts →
      ExponentialBackoff.go (α := α) cfg (fun i => .error (errs i)) attempt =
        (.error (errs (cfg.maxAttempts - 1)), cfg.maxAttempts - attempt) := by
  intro k
  induction k with
  | zero => intro attempt h1 h2; omega
  | succ k ih =>
    intro attempt h1 h2
    rw [ExponentialBackoff.go.eq_def, dif_pos h2]
    dsimp only
    by_cases hc : attempt < cfg.maxAttempts - 1
    · rw [if_pos ⟨hr attempt, hc⟩, ih (attempt + 1) (by omega) (by omega)]
      have he : cfg.maxAttempts - (attempt + 1) + 1 = cfg.maxAttempts - attempt := by omega
      simp [he]
    · rw [if_neg (fun hcon => hc hcon.2)]
      have ha : attempt = cfg.maxAttempts - 1 := by omega
      rw [ha]
      have hb : cfg.maxAttempts - (cfg.maxAttempts - 1) = 1 := by omega
      rw [hb]



/-- C9: the retry loop invokes an always-retryably-failing task exactly
`maxAttempts` times and propagates the last error unchanged; a task whose
first failure is non-retryable is invoked exactly once and its error is
propagated unchanged. -/
theorem c9_theorem {α : Type} (cfg : RetryPolicyConfig) (h1 : 1 ≤ cfg.maxAttempts) :
    (∀ errs : Nat → JsError, (∀ i, isRetryableGemini (errs i) = true) →
      ExponentialBackoff.execute (α := α) cfg (fun i => .error (errs i)) =
        (.error (errs (cfg.maxAttempts - 1)), cfg.maxAttempts)) ∧
    (∀ (task : Nat → Except JsError α) (e : JsError),
      task 0 = .error e → isRetryableGemini e = false →
      ExponentialBackoff.execute cfg task = (.error e, 1)) := by
  constructor
  · intro errs hr
    have h := backoff_go_allfail (α := α) cfg errs hr cfg.maxAttempts 0 (by omega) (by omega)
    simpa [ExponentialBackoff.execute] using h
  · intro task e hte hnr
    unfold ExponentialBackoff.execute
    rw [ExponentialBackoff.go.eq_def, dif_pos (show 0 < cfg.maxAttempts by omega)]
    dsimp only
    rw [hte]
    dsimp only
    rw [if_neg (fun hcon => by simp [hnr] at hcon)]

theorem c9_witness :
    ExponentialBackoff.execute retryCfg3
        (fun _ => (Except.error (JsError.geminiApiError "Internal error" true) : Except JsError Nat)) =
      (.error (.geminiApiError "Internal error" true), 3) ∧
    ExponentialBackoff.execute retryCfg3
        (fun _ => (Except.error (JsError.plain "bad input") : Except JsError Nat)) =
      (.error (.plain "bad input"), 1) :=
  ⟨(c9_theorem retryCfg3 (by decide)).1 (fun _ => .geminiApiError "Internal error" true)
      (fun _ => rfl),
   (c9_theorem retryCfg3 (by decide)).2 (fun _ => .error (.plain "bad input"))
      (.plain "bad input") rfl rfl⟩

theorem cb_closed_fail_run {α : Type} (cfg : CircuitBreakerConfig) :
    ∀ (fails : List (Int × JsError)) (c : Nat) (t0 : Int),
      c < cfg.failureThreshold → c + fails.length = cfg.failureThreshold →
      (CircuitBreaker.run (α := α) cfg ⟨.CLOSED, c, t0⟩
        (fails.map (fun te => (te.1, Except.error te.2)))).state = .OPEN := by
  intro fails
  induction fails with
  | nil => intro c t0 hc hlen; simp at hlen; omega
  | cons te rest ih =>
    intro c t0 hc hlen
    have hlen2 : c + rest.length + 1 = cfg.failureThreshold := by simpa using hlen
    rw [List.map_cons, CircuitBreaker.run]
    have hstep : (CircuitBreaker.executeStep (α := α) cfg ⟨.CLOSED, c, t0⟩ te.1
        (Except.error te.2)).breaker =
        (if cfg.failureThreshold ≤ c + 1 then (⟨.OPEN, c + 1, te.1⟩ : CircuitBreaker)
         else ⟨.CLOSED, c + 1, te.1⟩) := by
      simp [CircuitBreaker.executeStep, CircuitBreaker.runTask, CircuitBreaker.onFailure,
        CircuitBreaker.trip]
    by_cases hge : cfg.failureThreshold ≤ c + 1
    · have hrest : rest = [] := List.eq_nil_of_length_eq_zero (by omega)
      subst hrest
      rw [hstep, if_pos hge]
      simp [CircuitBreaker.run]
    · rw [hstep, if_neg hge]
      exact ih (c + 1) te.1 (by omega) (by omega)

/-- C8: after `failureThreshold` consecutive failures the breaker is open;
while open, a call whose elapsed time since the last failure is at most
`timeout` is rejected unchanged and uninvoked (note: the code uses a strict
comparison, so elapsed exactly equal to `timeout` still rejects); once
elapsed exceeds `timeout` the one probe call runs, and a successful probe
returns the breaker to closed with the failure count reset to 0. -/
theorem c8_theorem {α : Type} (cfg : CircuitBreakerConfig) :
    (∀ fails : List (Int × JsError), 1 ≤ cfg.failureThreshold →
      fails.length = cfg.failureThreshold →
      (CircuitBreaker.run (α := α) cfg ⟨.CLOSED, 0, 0⟩
        (fails.map (fun te => (te.1, Except.error te.2)))).state = .OPEN) ∧
    (∀ (cb : CircuitBreaker) (now : Int) (outcome : Except JsError α),
      cb.state = .OPEN → now - cb.lastFailureTime ≤ cfg.timeout →
      CircuitBreaker.executeStep cfg cb now outcome = ⟨cb, .error breakerOpenError, false⟩) ∧
    (∀ (cb : CircuitBreaker) (now : Int) (v : α),
      cb.state = .OPEN → cfg.timeout < now - cb.lastFailureTime →
      CircuitBreaker.executeStep cfg cb now (.ok v) =
        ⟨⟨.CLOSED, 0, cb.lastFailureTime⟩, .ok v, true⟩) := by
  refine ⟨?_, ?_, ?_⟩
  · intro fails h1 hlen
    exact cb_closed_fail_run cfg fails 0 0 (by omega) (by omega)
  · intro cb now outcome hopen helapsed
    unfold CircuitBreaker.executeStep
    rw [if_pos hopen, if_neg (by omega)]
  · intro cb now v hopen helapsed
    unfold CircuitBreaker.executeStep
    rw [if_pos hopen, if_pos (by omega)]
    simp [CircuitBreaker.runTask, CircuitBreaker.onSuccess, CircuitBreaker.reset]

theorem c8_witness :
    (CircuitBreaker.run (α := Nat) cbCfg1 ⟨.CLOSED, 0, 0⟩
        ([((0 : Int), JsError.plain "x")].map (fun te => (te.1, Except.error te.2)))).state =
      .OPEN ∧
    CircuitBreaker.executeStep cbCfg1 ⟨.OPEN, 1, 0⟩ 5 (Except.ok (7 : Nat)) =
      ⟨⟨.OPEN, 1, 0⟩, .error breakerOpenError, false⟩ ∧
    CircuitBreaker.executeStep cbCfg1 ⟨.OPEN, 1, 0⟩ 11 (Except.ok (7 : Nat)) =
      ⟨⟨.CLOSED, 0, 0⟩, .ok 7, true⟩ :=
  ⟨(c8_theorem cbCfg1).1 [(0, .plain "x")] (by decide) (by decide),
   (c8_theorem cbCfg1).2.1 ⟨.OPEN, 1, 0⟩ 5 (Except.ok 7) rfl (by decide),
   (c8_theorem cbCfg1).2.2 ⟨.OPEN, 1, 0⟩ 11 7 rfl (by decide)⟩

/-- C8 counterexample: under threshold 1 and timeout 10, one failure at
instant 0 trips the breaker; a call at instant 10 has elapsed time exactly
equal to `timeout`, which the claim says must transition to HalfOpen and
probe, yet the code rejects it without invoking the operation. -/
theorem c8_counterexample :
    failedOnce = ⟨.OPEN, 1, 0⟩ ∧
    (CircuitBreaker.executeStep cbCfg1 failedOnce 10 (Except.ok (7 : Nat))).invoked = false ∧
    (CircuitBreaker.executeStep cbCfg1 failedOnce 10 (Except.ok (7 : Nat))).result =
      .error breakerOpenError ∧
    (CircuitBreaker.executeStep cbCfg1 failedOnce 10 (Except.ok (7 : Nat))).breaker.state =
      .OPEN := by
  refine ⟨?_, ?_, ?_, ?_⟩ <;> decide

theorem reindexNodes_length : ∀ (l : List ConversationNode) (m : Int) (i : Nat),
    (reindexNodes m i l).length = l.length := by
  intro l
  induction l with
  | nil => intro m i; rfl
  | cons n rest ih => intro m i; simp [reindexNodes, ih]

theorem foldl_max_seq : ∀ (l : List ConversationNode) (b a : Int), seqNodes l b → l ≠ [] →
    l.foldl (fun m node => max m node.node_id) a = max a (b + l.length) := by
  intro l
  induction l with
  | nil => intro b a _ hne; exact absurd rfl hne
  | cons n rest ih =>
    intro b a hseq _
    obtain ⟨hid, hrest⟩ := hseq
    rw [List.foldl_cons, hid]
    cases rest with
    | nil => simp
    | cons n2 rest2 =>
      rw [ih (b + 1) (max a (b + 1)) hrest (by simp), max_assoc]
      congr 1
      rw [max_eq_right (by simp only [List.length_cons]; push_cast; omega)]
      simp only [List.length_cons]
      push_cast
      ring

theorem maxNodeId_seq (l : List ConversationNode) (h : seqNodes l 0) :
    maxNodeId l = l.length := by
  cases l with
  | nil => rfl
  | cons n rest =>
    unfold maxNodeId
    rw [foldl_max_seq (n :: rest) 0 0 h (by simp)]
    rw [max_eq_right (by omega)]
    ring

theorem seqNodes_append : ∀ (l l2 : List ConversationNode) (b : Int),
    seqNodes l b → seqNodes l2 (b + l.length) → seqNodes (l ++ l2) b := by
  intro l
  induction l with
  | nil => intro l2 b _ h2; simpa using h2
  | cons n rest ih =>
    intro l2 b h1 h2
    obtain ⟨hid, hrest⟩ := h1
    refine ⟨hid, ?_⟩
    apply ih l2 (b + 1) hrest
    have he : b + ((n :: rest).length : Int) = (b + 1) + (rest.length : Int) := by
      simp only [List.length_cons]
      push_cast
      ring
    rwa [he] at h2

theorem seqNodes_reindex : ∀ (l : List ConversationNode) (m : Int) (i : Nat),
    seqNodes (reindexNodes m i l) (m + i) := by
  intro l
  induction l with
  | nil => intro m i; exact trivial
  | cons n rest ih =>
    intro m i
    refine ⟨by show m + 1 + (i : Int) = (m + i) + 1; ring, ?_⟩
    have h := ih m (i + 1)
    have he : m + ((i : Nat) + 1 : Int) = (m + i) + 1 := by ring
    push_cast at h
    rwa [he] at h

theorem parentsBounded_mono (l : List ConversationNode) (lo hi lo2 hi2 : Int)
    (h1 : lo2 ≤ lo) (h2 : hi ≤ hi2) (h : parentsBounded l lo hi) :
    parentsBounded l lo2 hi2 :=
  fun node hm p hp => ⟨le_trans h1 (h node hm p hp).1, le_trans (h node hm p hp).2 h2⟩

theorem parentsBounded_append (l l2 : List ConversationNode) (lo hi : Int)
    (h1 : parentsBounded l lo hi) (h2 : parentsBounded l2 lo hi) :
    parentsBounded (l ++ l2) lo hi := by
  intro node hm
  rcases List.mem_append.mp hm with hmem | hmem
  · exact h1 node hmem
  · exact h2 node hmem

theorem parentsBounded_reindex : ∀ (l : List ConversationNode) (m : Int) (i : Nat) (n : Int),
    parentsBounded l 0 n → parentsBounded (reindexNodes m i l) (m + 1) (m + n) := by
  intro l
  induction l with
  | nil => intro m i n _ node hm; simp [reindexNodes] at hm
  | cons node0 rest ih =>
    intro m i n hb node hm
    rcases List.mem_cons.mp hm with heq | hmem
    · subst heq
      intro p hp
      cases hpar : node0.parent_node_id with
      | none => simp [reindexNodes, hpar] at hp
      | some q =>
        by_cases hq : q = 0
        · simp [reindexNodes, hpar, hq] at hp
        · simp [reindexNodes, hpar, hq] at hp
          obtain ⟨hq0, hqn⟩ := hb node0 (List.mem_cons_self node0 rest) q hpar
          omega
    · exact ih m (i + 1) n (fun nd hm2 p hp => hb nd (List.mem_cons_of_mem _ hm2) p hp) node hmem

/-- The inductive invariant of the email-merge fold: the accumulated nodes
are numbered 1..length in array order and every non-null parent lies in
that range. -/
def mergedInv (l : List ConversationNode) : Prop :=
  seqNodes l 0 ∧ parentsBounded l 1 l.length

theorem mergeEmailStep_inv (acc r : EmailResult) (hacc : mergedInv acc.conversation_nodes)
    (_hseq : seqNodes r.conversation_nodes 0)
    (hpar : parentsBounded r.conversation_nodes 0 r.conversation_nodes.length) :
    mergedInv (mergeEmailStep acc r).conversation_nodes := by
  obtain ⟨hs, hp⟩ := hacc
  have hmax : maxNodeId acc.conversation_nodes = (acc.conversation_nodes.length : Int) :=
    maxNodeId_seq _ hs
  show mergedInv (acc.conversation_nodes ++
    reindexNodes (maxNodeId acc.conversation_nodes) 0 r.conversation_nodes)
  rw [hmax]
  constructor
  · apply seqNodes_append _ _ 0 hs
    have h := seqNodes_reindex r.conversation_nodes (acc.conversation_nodes.length : Int) 0
    simpa using h
  · have hlen : (acc.conversation_nodes ++
        reindexNodes (acc.conversation_nodes.length : Int) 0 r.conversation_nodes).length =
        acc.conversation_nodes.length + r.conversation_nodes.length := by
      rw [List.length_append, reindexNodes_length]
    rw [hlen]
    apply parentsBounded_append
    · apply parentsBounded_mono _ 1 (acc.conversation_nodes.length : Int) 1 _ le_rfl _ hp
      push_cast
      omega
    · have h := parentsBounded_reindex r.conversation_nodes (acc.conversation_nodes.length : Int)
        0 (r.conversation_nodes.length : Int) hpar
      apply parentsBounded_mono _ _ _ _ _ _ _ h
      · omega
      · push_cast; omega

theorem foldl_mergeEmail_inv : ∀ (results : List EmailResult) (acc : EmailResult),
    mergedInv acc.conversation_nodes →
    (∀ r ∈ results, seqNodes r.conversation_nodes 0 ∧
      parentsBounded r.conversation_nodes 0 r.conversation_nodes.length) →
    mergedInv ((results.foldl mergeEmailStep acc).conversation_nodes) := by
  intro results
  induction results with
  | nil => intro acc hacc _; exact hacc
  | cons r rest ih =>
    intro acc hacc h
    rw [List.foldl_cons]
    apply ih
    · exact mergeEmailStep_inv acc r hacc (h r (List.mem_cons_self r rest)).1
        (h r (List.mem_cons_self r rest)).2
    · intro r2 hr2
      exact h r2 (List.mem_cons_of_mem _ hr2)

theorem seq_nodeIds : ∀ (l : List ConversationNode) (b : Int), seqNodes l b →
    nodeIds l = (List.range l.length).map (fun (i : Nat) => b + (i : Int) + 1) := by
  intro l
  induction l with
  | nil => intro b _; rfl
  | cons n rest ih =>
    intro b h
    obtain ⟨hid, hrest⟩ := h
    show n.node_id :: nodeIds rest = _
    rw [hid, ih (b + 1) hrest, List.length_cons, List.range_succ_eq_map, List.map_cons,
      List.map_map]
    congr 1
    · simp
    · apply List.map_congr_left
      intro i _
      simp only [Function.comp_apply]
      push_cast
      ring

theorem mergedInv_nodup (l : List ConversationNode) (h : mergedInv l) :
    (nodeIds l).Nodup := by
  rw [seq_nodeIds l 0 h.1]
  apply List.Nodup.map _ (List.nodup_range _)
  intro i j hij
  simp at hij
  omega

theorem mergedInv_resolve (l : List ConversationNode) (h : mergedInv l) :
    parentsResolve l := by
  intro node hm p hp
  obtain ⟨h1, h2⟩ := h.2 node hm p hp
  have hmem : p ∈ nodeIds l := by
    rw [seq_nodeIds l 0 h.1]
    have hi : (p - 1).toNat < l.length := by omega
    have he : (0 : Int) + (((p - 1).toNat : Nat) : Int) + 1 = p := by omega
    exact List.mem_map.mpr ⟨(p - 1).toNat, List.mem_range.mpr hi, he⟩
  obtain ⟨node2, hm2, hid⟩ := List.mem_map.mp hmem
  exact ⟨node2, hm2, hid⟩

/-- C1 amended: node-id uniqueness and parent resolution hold when every
result is numbered the way the reindexing assumes: nodes carry ids 1..n in
array order and parents reference that range (0 or null meaning no parent).
The rewrite is the fixed offset `runningMax + old`, not an old-to-new map,
so mere internal consistency is not enough (see the counterexample). -/
theorem c1_theorem (emailResults : List EmailResult)
    (h : ∀ r ∈ emailResults, seqNodes r.conversation_nodes 0 ∧
      parentsBounded r.conversation_nodes 0 r.conversation_nodes.length) :
    (nodeIds (mergedEmailData emailResults).conversation_nodes).Nodup ∧
    parentsResolve (mergedEmailData emailResults).conversation_nodes := by
  have hinv : mergedInv ((mergedEmailData emailResults).conversation_nodes) := by
    apply foldl_mergeEmail_inv emailResults emptyEmailAcc _ h
    exact ⟨trivial, fun node hm => by simp [emptyEmailAcc] at hm⟩
  exact ⟨mergedInv_nodup _ hinv, mergedInv_resolve _ hinv⟩

theorem c1_witness :
    (nodeIds (mergedEmailData [seqResultA, seqResultB]).conversation_nodes).Nodup ∧
    parentsResolve (mergedEmailData [seqResultA, seqResultB]).conversation_nodes :=
  c1_theorem [seqResultA, seqResultB] (by decide)

/-- C1 counterexample: one email result whose nodes are internally consistent
(ids 5 and 7, parent 5) but not consecutively numbered. After merging, the
nodes get ids 1 and 2 while the parent is rewritten to the dangling id 5, so
the claimed resolution property fails. -/
theorem c1_counterexample :
    parentsResolve gapResult.conversation_nodes ∧
    ¬ parentsResolve (mergedEmailData [gapResult]).conversation_nodes := by
  constructor <;> decide

theorem recHas_recSet_self (m : Statuses) (k : String) (v : FileStatus) :
    recHas (recSet m k v) k = true := by
  unfold recHas recSet
  by_cases hp : m.any (fun kv => kv.1 == k) = true
  · rw [if_pos hp]
    obtain ⟨kv, hkv, hk⟩ := List.any_eq_true.mp hp
    apply List.any_eq_true.mpr
    exact ⟨(k, v), List.mem_map.mpr ⟨kv, hkv, if_pos hk⟩, by simp⟩
  · rw [if_neg hp]
    apply List.any_eq_true.mpr
    exact ⟨(k, v), List.mem_append.mpr (Or.inr (by simp)), by simp⟩

theorem recHas_recSet_of (m : Statuses) (k2 k : String) (v : FileStatus)
    (h : recHas m k2 = true) : recHas (recSet m k v) k2 = true := by
  unfold recHas recSet at *
  by_cases hp : m.any (fun kv => kv.1 == k) = true
  · rw [if_pos hp]
    obtain ⟨kv, hkv, hk2⟩ := List.any_eq_true.mp h
    apply List.any_eq_true.mpr
    by_cases hx : (kv.1 == k) = true
    · refine ⟨(k, v), List.mem_map.mpr ⟨kv, hkv, if_pos hx⟩, ?_⟩
      have h1 : kv.1 = k := by simpa using hx
      have h2 : kv.1 = k2 := by simpa using hk2
      simp [← h1, h2]
    · exact ⟨kv, List.mem_map.mpr ⟨kv, hkv, if_neg hx⟩, hk2⟩
  · rw [if_neg hp]
    rw [List.any_append]
    simp [h]

theorem recHas_foldl_seed : ∀ (files : List File) (acc : Statuses) (k : String),
    recHas acc k = true →
    recHas (files.foldl (fun a f => recSet a f.name queuedStatus) acc) k = true := by
  intro files
  induction files with
  | nil => intro acc k h; exact h
  | cons f rest ih =>
    intro acc k h
    exact ih _ k (recHas_recSet_of _ k f.name queuedStatus h)

theorem seed_covers_gen : ∀ (files : List File) (acc : Statuses) (f : File), f ∈ files →
    recHas (files.foldl (fun a g => recSet a g.name queuedStatus) acc) f.name = true := by
  intro files
  induction files with
  | nil => intro acc f hmem; simp at hmem
  | cons g rest ih =>
    intro acc f hmem
    rcases List.mem_cons.mp hmem with heq | hmem2
    · subst heq
      exact recHas_foldl_seed rest _ f.name (recHas_recSet_self acc f.name queuedStatus)
    · exact ih _ f hmem2

theorem seed_covers (files : List File) (f : File) (hf : f ∈ files) :
    recHas (seedStatuses files) f.name = true :=
  seed_covers_gen files [] f hf

/-- The inductive invariant behind C5: whenever the machine sits in
ConvertingPdfs or AnalyzingParallel, every submitted file has a
`fileProcessingStatus` entry. -/
def statusInvariant (s : OrchestratorState) : Prop :=
  (s.value = .CONVERTING_PDFS ∨ s.value = .ANALYZING_PARALLEL) →
    ∀ f ∈ s.context.files, recHas s.context.fileProcessingStatus f.name = true

theorem statusInvariant_initial : statusInvariant initialState := by
  intro _ f hf
  simp [initialState, initialContext] at hf

theorem statusInvariant_step (s : OrchestratorState) (e : OrchestratorEvent)
    (h : statusInvariant s) : statusInvariant (orchestratorReducer s e) := by
  obtain ⟨v, ctx⟩ := s
  cases v with
  | IDLE =>
    cases e <;> try exact h
    case SUBMIT_FILES files =>
      intro hcon
      rcases hcon with hc | hc <;> exact ProjectLifecycle.noConfusion hc
  | VALIDATING =>
    cases e <;> try exact h
    case VALIDATION_SUCCESS =>
      intro _ f hf
      exact seed_covers ctx.files f hf
    case SET_ERROR err =>
      intro hcon
      rcases hcon with hc | hc <;> exact ProjectLifecycle.noConfusion hc
  | CONVERTING_PDFS =>
    cases e <;> try exact h
    case PDF_CONVERSION_COMPLETE images =>
      intro _ f hf
      exact h (Or.inl rfl) f hf
    case UPDATE_STATUS fileName status =>
      intro _ f hf
      exact recHas_recSet_of _ _ _ _ (h (Or.inl rfl) f hf)
    case SET_ERROR err =>
      intro hcon
      rcases hcon with hc | hc <;> exact ProjectLifecycle.noConfusion hc
  | ANALYZING_PARALLEL =>
    cases e <;> try exact h
    case UPDATE_STATUS fileName status =>
      intro _ f hf
      exact recHas_recSet_of _ _ _ _ (h (Or.inr rfl) f hf)
    case ANALYSIS_COMPLETE payload =>
      intro hcon
      have hval : (orchestratorReducer ⟨.ANALYZING_PARALLEL, ctx⟩
          (.ANALYSIS_COMPLETE payload)).value =
          (if 0 < payload.imageData.length then ProjectLifecycle.AWAITING_REVIEW
           else ProjectLifecycle.CREATING_PROJECT) := rfl
      rw [hval] at hcon
      rcases hcon with hc | hc <;>
        by_cases hcimg : 0 < payload.imageData.length <;> simp [hcimg] at hc
    case SET_ERROR err =>
      intro hcon
      rcases hcon with hc | hc <;> exact ProjectLifecycle.noConfusion hc
  | AWAITING_REVIEW =>
    cases e <;> try exact h
    case CONFIRM_REVIEW images =>
      intro hcon
      rcases hcon with hc | hc <;> exact ProjectLifecycle.noConfusion hc
  | CREATING_PROJECT =>
    cases e <;> try exact h
    case PROJECT_CREATED project =>
      intro hcon
      rcases hcon with hc | hc <;> exact ProjectLifecycle.noConfusion hc
  | COMPLETE =>
    cases e <;> try exact h
    case RESET => exact statusInvariant_initial
    case CANCEL => exact statusInvariant_initial
  | ERROR =>
    cases e <;> try exact h
    case SUBMIT_FILES files =>
      intro hcon
      rcases hcon with hc | hc <;> exact ProjectLifecycle.noConfusion hc
    case RESET => exact statusInvariant_initial
    case CANCEL => exact statusInvariant_initial

theorem statusInvariant_run (events : List OrchestratorEvent) :
    statusInvariant (runEvents events) := by
  suffices hgen : ∀ (evs : List OrchestratorEvent) (s : OrchestratorState),
      statusInvariant s → statusInvariant (evs.foldl orchestratorReducer s) by
    exact hgen events initialState statusInvariant_initial
  intro evs
  induction evs with
  | nil => intro s hs; exact hs
  | cons e rest ih =>
    intro s hs
    exact ih _ (statusInvariant_step s e hs)

/-- C5 amended: when a run reaches AnalyzingParallel, every file of `files`
has a `fileProcessingStatus` entry (seeded by VALIDATION_SUCCESS and only
ever extended afterwards); the files of `convertedImagesFromPdfs` however
have no entries at that point - they only gain entries once their image
analysis tasks dispatch UPDATE_STATUS. -/
theorem c5_theorem (events : List OrchestratorEvent)
    (h : (runEvents events).value = .ANALYZING_PARALLEL) :
    ∀ f ∈ (runEvents events).context.files,
      recHas (runEvents events).context.fileProcessingStatus f.name = true :=
  statusInvariant_run events (Or.inr h)

theorem c5_witness :
    (runEvents plainTrace).value = .ANALYZING_PARALLEL ∧
    recHas (runEvents plainTrace).context.fileProcessingStatus "email.txt" = true :=
  ⟨by decide, c5_theorem plainTrace (by decide) emailTxt (by decide)⟩

/-- C5 counterexample: a run with a PDF reaches AnalyzingParallel with the
converted page image stored in `convertedImagesFromPdfs` but with no
`fileProcessingStatus` entry for it. -/
theorem c5_counterexample :
    (runEvents pdfTrace).value = .ANALYZING_PARALLEL ∧
    pageImg ∈ (runEvents pdfTrace).context.convertedImagesFromPdfs ∧
    recHas (runEvents pdfTrace).context.fileProcessingStatus pageImg.name = false := by
  refine ⟨?_, ?_, ?_⟩ <;> decide

theorem decCharsGo_append : ∀ (fuel n : Nat) (acc : List Char),
    decCharsGo fuel n acc = decCharsGo fuel n [] ++ acc := by
  intro fuel
  induction fuel with
  | zero => intro n acc; rfl
  | succ fuel ih =>
    intro n acc
    by_cases hn : n < 10
    · simp [decCharsGo, hn]
    · simp only [decCharsGo, if_neg hn]
      rw [ih (n / 10) (Nat.digitChar (n % 10) :: acc), ih (n / 10) [Nat.digitChar (n % 10)]]
      simp

theorem digitChar_isDigit : ∀ d : Nat, d < 10 → (Nat.digitChar d).isDigit = true := by decide

theorem decCharsGo_digits : ∀ (fuel n : Nat) (acc : List Char),
    (∀ c ∈ acc, c.isDigit = true) → ∀ c ∈ decCharsGo fuel n acc, c.isDigit = true := by
  intro fuel
  induction fuel with
  | zero => intro n acc hacc; exact hacc
  | succ fuel ih =>
    intro n acc hacc c hc
    by_cases hn : n < 10
    · simp only [decCharsGo, if_pos hn] at hc
      rcases List.mem_cons.mp hc with he | hm
      · subst he; exact digitChar_isDigit n hn
      · exact hacc c hm
    · simp only [decCharsGo, if_neg hn] at hc
      refine ih (n / 10) _ ?_ c hc
      intro c2 hc2
      rcases List.mem_cons.mp hc2 with he | hm
      · subst he; exact digitChar_isDigit _ (Nat.mod_lt n (by omega))
      · exact hacc c2 hm

theorem decChars_digits (n : Nat) : ∀ c ∈ decChars n, c.isDigit = true :=
  decCharsGo_digits (n + 1) n [] (by simp)

theorem digitVal_digitChar : ∀ d : Nat, d < 10 → digitVal (Nat.digitChar d) = d := by decide

theorem decode_decCharsGo : ∀ (fuel n : Nat), n < fuel → ∀ a : Nat,
    decodeDigits a (decCharsGo fuel n []) =
      a * 10 ^ (decCharsGo fuel n []).length + n := by
  intro fuel
  induction fuel with
  | zero => intro n h; omega
  | succ fuel ih =>
    intro n hn a
    by_cases h10 : n < 10
    · simp only [decCharsGo, if_pos h10]
      show 10 * a + digitVal (Nat.digitChar n) = a * 10 ^ ([Nat.digitChar n].length) + n
      rw [digitVal_digitChar n h10]
      simp [pow_one]
      omega
    · simp only [decCharsGo, if_neg h10]
      rw [decCharsGo_append fuel (n / 10) [Nat.digitChar (n % 10)]]
      have hlt : n / 10 < fuel := by
        have hd : n / 10 < n := Nat.div_lt_self (by omega) (by omega)
        omega
      unfold decodeDigits
      rw [List.foldl_append]
      show 10 * (decodeDigits a (decCharsGo fuel (n / 10) [])) + digitVal (Nat.digitChar (n % 10)) = _
      rw [ih (n / 10) hlt a, digitVal_digitChar _ (Nat.mod_lt n (by omega)), List.length_append]
      have key : n = 10 * (n / 10) + n % 10 := (Nat.div_add_mod n 10).symm
      set L := (decCharsGo fuel (n / 10) []).length with hL
      show 10 * (a * 10 ^ L + n / 10) + n % 10 = a * 10 ^ (L + [Nat.digitChar (n % 10)].length) + n
      simp only [List.length_singleton]
      rw [pow_succ]
      nlinarith [key]

theorem decChars_injective : Function.Injective decChars := by
  intro m n h
  have hm := decode_decCharsGo (m + 1) m (by omega) 0
  have hn := decode_decCharsGo (n + 1) n (by omega) 0
  simp only [Nat.zero_mul, Nat.zero_add] at hm hn
  unfold decChars at h
  rw [h] at hm
  omega

theorem no_dash_split : ∀ (xs ys zs ws : List Char),
    (∀ c ∈ xs, c.isDigit = true) → (∀ c ∈ ys, c.isDigit = true) →
    xs ++ '-' :: zs = ys ++ '-' :: ws → xs = ys ∧ zs = ws := by
  intro xs
  induction xs with
  | nil =>
    intro ys zs ws _ hys h
    cases ys with
    | nil =>
      simp only [List.nil_append, List.cons.injEq] at h
      exact ⟨rfl, h.2⟩
    | cons y ys2 =>
      simp only [List.nil_append, List.cons_append, List.cons.injEq] at h
      have hd := hys y (List.mem_cons_self y ys2)
      rw [← h.1] at hd
      exact absurd hd (by decide)
  | cons x xs2 ih =>
    intro ys zs ws hxs hys h
    cases ys with
    | nil =>
      simp only [List.nil_append, List.cons_append, List.cons.injEq] at h
      have hd := hxs x (List.mem_cons_self x xs2)
      rw [h.1] at hd
      exact absurd hd (by decide)
    | cons y ys2 =>
      simp only [List.cons_append, List.cons.injEq] at h
      obtain ⟨hxy, hrest⟩ := h
      obtain ⟨h1, h2⟩ := ih ys2 zs ws (fun c hc => hxs c (List.mem_cons_of_mem _ hc))
        (fun c hc => hys c (List.mem_cons_of_mem _ hc)) hrest
      exact ⟨by rw [hxy, h1], h2⟩

theorem taskId_injective : ∀ (t i t2 i2 : Nat), taskId t i = taskId t2 i2 → t = t2 ∧ i = i2 := by
  intro t i t2 i2 h
  have hdata : taskIdChars t i = taskIdChars t2 i2 := congrArg String.data h
  unfold taskIdChars at hdata
  rw [List.append_assoc, List.append_assoc] at hdata
  have hdata2 : decChars t ++ '-' :: decChars i = decChars t2 ++ '-' :: decChars i2 :=
    List.append_cancel_left hdata
  obtain ⟨h1, h2⟩ := no_dash_split _ _ _ _ (decChars_digits t) (decChars_digits t2) hdata2
  exact ⟨decChars_injective h1, decChars_injective h2⟩

theorem foldl_mergeEmail_action_items : ∀ (results : List EmailResult) (acc : EmailResult),
    (results.foldl mergeEmailStep acc).action_items =
      acc.action_items ++ (results.map (fun r => r.action_items)).flatten := by
  intro results
  induction results with
  | nil => intro acc; simp
  | cons r rest ih =>
    intro acc
    rw [List.foldl_cons, ih]
    show (mergeEmailStep acc r).action_items ++ _ = _
    simp [mergeEmailStep, List.append_assoc]

theorem assignActionItemIds_ids : ∀ (items : List RawActionItem) (now idx : Nat),
    (assignActionItemIds now idx items).map (fun a => a.id) =
      (List.range' idx items.length).map (taskId now) := by
  intro items
  induction items with
  | nil => intro now idx; rfl
  | cons item rest ih =>
    intro now idx
    show taskId now idx :: (assignActionItemIds now (idx + 1) rest).map (fun a => a.id) = _
    rw [ih now (idx + 1), List.length_cons, List.range'_succ]
    rfl

theorem analyzedEmailRun_ids (inputs : List (Nat × RawEmailResult)) :
    (analyzedEmailRun inputs).action_items.map (fun a => a.id) =
      (inputs.map
        (fun ti => (List.range' 0 ti.2.action_items.length).map (taskId ti.1))).flatten := by
  unfold analyzedEmailRun mergedEmailData
  rw [foldl_mergeEmail_action_items]
  simp only [emptyEmailAcc, List.nil_append, List.map_map]
  rw [List.map_flatten, List.map_map]
  congr 1
  apply List.map_congr_left
  intro ti _
  exact assignActionItemIds_ids ti.2.action_items ti.1 0

/-- C6 amended: ids are assigned by the system inside
`analyzeEmailConversation`'s post-processing (never taken from the AI reply:
the generated id always overwrites), per email file BEFORE the merge, as
`task-` + Date.now() + `-` + index. Within a project they are unique
provided the per-file `Date.now()` stamps differ; two email files whose
analyses observe the same millisecond produce colliding ids. -/
theorem c6_theorem (inputs : List (Nat × RawEmailResult))
    (hts : (inputs.map Prod.fst).Nodup) :
    ((analyzedEmailRun inputs).action_items.map (fun a => a.id)).Nodup ∧
    (∀ (now : Nat) (items : List RawActionItem),
      (assignActionItemIds now 0 items).map (fun a => a.id) =
        (List.range' 0 items.length).map (taskId now)) := by
  constructor
  · rw [analyzedEmailRun_ids]
    apply List.nodup_flatten.mpr
    constructor
    · intro l hl
      obtain ⟨ti, hti, rfl⟩ := List.mem_map.mp hl
      apply List.Nodup.map
      · intro i j hij
        exact (taskId_injective _ _ _ _ hij).2
      · exact List.nodup_range' 0 ti.2.action_items.length 1 (by omega)
    · rw [List.pairwise_map]
      have hts2 : inputs.Pairwise (fun a b => a.1 ≠ b.1) := List.pairwise_map.mp hts
      apply List.Pairwise.imp _ hts2
      intro a b hne x hxa hxb
      obtain ⟨i, _, hia⟩ := List.mem_map.mp hxa
      obtain ⟨j, _, hjb⟩ := List.mem_map.mp hxb
      rw [← hjb] at hia
      exact hne (taskId_injective _ _ _ _ hia).1
  · intro now items
    exact assignActionItemIds_ids items now 0

theorem c6_witness :
    ((analyzedEmailRun [(100, rawE), (200, rawE)]).action_items.map (fun a => a.id)).Nodup ∧
    (∀ (now : Nat) (items : List RawActionItem),
      (assignActionItemIds now 0 items).map (fun a => a.id) =
        (List.range' 0 items.length).map (taskId now)) :=
  c6_theorem [(100, rawE), (200, rawE)] (by decide)

/-- C6 counterexample: two email files analyzed in the same run whose
post-processing observes the same Date.now() millisecond (100) produce the
same id `task-100-0` for their first action items, so the merged project's
action-item ids are not globally unique. -/
theorem c6_counterexample :
    ¬ ((analyzedEmailRun [(100, rawE), (100, rawE)]).action_items.map
        (fun a => a.id)).Nodup := by
  decide

end VIRA
